import Mathlib

/-!
# Data-access layer of tamil-wordle (`backend/dao/data.go`)

A shallow embedding of the six operations of the `dao` package over an explicit
model of the external document store.

* A collection is the list of its documents `(document identifier, stored record)`
  in the store's iteration order.  A stored user document carries the five fields of
  the Go struct `User` (the struct is written whole by `ref.Set`, its `Id` field
  included); likewise for `Word`.
* Everything the external store decides is an input of the operation, gathered in
  `Env`: the identifier `NewDoc` hands out, the place the iteration order gives to a
  newly created document, and which calls to the store fail.
* Every operation returns its Go result together with the store after the call, so
  that the effect of a call that ends in an error is visible too.
-/

set_option linter.dupNamespace false

namespace Dao

/-! ## Data model (data.go 12-28) -/

/-- Go struct `User` (data.go 12-18). -/
structure User where
  Id : String
  Name : String
  TwitterHandle : String
  PublicKey : String
  Active : Bool
deriving DecidableEq

/-- Go struct `Word` (data.go 20-25). -/
structure Word where
  Id : String
  Word : String
  Date : String
  UserId : String
deriving DecidableEq

/-- Go zero value `Word{}`. -/
def zeroWord : Word := ⟨"", "", "", ""⟩

/-- A collection: its documents, keyed by document identifier, in iteration order. -/
abbrev Coll (α : Type) := List (String × α)

/-- The two collections `users` and `words` (data.go 27-28). -/
structure Store where
  users : Coll User
  words : Coll Word
deriving DecidableEq

/-- Errors returned by the package, one constructor per `fmt.Errorf` site. -/
inductive DaoError where
  | initApp
  | initFirestore
  | iterate
  | addUser
  | iterateActive
  | inactivate
  | getUser
  | activate
  | updatePublicKey
  | checkWord (inner : DaoError)
  | wordExists
  | addWord
deriving DecidableEq

/-- The fixed text of each error (the wrapped cause `%v` is left out). -/
def DaoError.message : DaoError → String
  | .initApp => "error initializing app"
  | .initFirestore => "error initializing Firestore"
  | .iterate => "failed to iterate"
  | .addUser => "failed to add user"
  | .iterateActive => "failed to iterate existing active users"
  | .inactivate => "failed to inactivate existing active user"
  | .getUser => "failed to get user"
  | .activate => "failed to activate user"
  | .updatePublicKey => "failed to update public key"
  | .checkWord _ => "failed to check if word exists for the day"
  | .wordExists => "word already exists for the day"
  | .addWord => "failed to add word"

/-- What the external store decides during one call of an operation.
`newId` is the identifier `NewDoc()` returns, `pos` the place the store's iteration
order gives to a document created by the call; the remaining fields say which calls
fail: the k-th `firebase.NewApp`, `app.Firestore`, `iter.Next`, `Doc(id).Get` and
`ref.Set` of the operation (counted from 0). -/
structure Env where
  newId : String
  pos : Nat
  appErr : Nat → Bool
  firestoreErr : Nat → Bool
  nextErr : Nat → Bool
  getErr : Nat → Bool
  setErr : Nat → Bool

/-- The environment in which no call to the store fails. -/
def Env.ok (newId : String) (pos : Nat) : Env :=
  ⟨newId, pos, fun _ => false, fun _ => false, fun _ => false, fun _ => false, fun _ => false⟩

/-- The environment seen by an operation called after one `openClient` of the caller. -/
def Env.nested (e : Env) : Env :=
  ⟨e.newId, e.pos, fun k => e.appErr (k + 1), fun k => e.firestoreErr (k + 1),
    e.nextErr, e.getErr, e.setErr⟩

/-! ## The document store client -/

/-- Identifiers of the documents of a collection, in iteration order. -/
def docIds {α : Type} (c : Coll α) : List String := c.map Prod.fst

/-- Fetch by identifier: `Collection(..).Doc(id).Get`, `none` when `id` does not resolve. -/
def getDoc {α : Type} (id : String) : Coll α → Option α
  | [] => none
  | (i, d) :: rest => if i = id then some d else getDoc id rest

/-- Overwrite the document stored at `id`. -/
def replaceDoc {α : Type} (id : String) (d : α) : Coll α → Coll α
  | [] => []
  | (i, x) :: rest => if i = id then (id, d) :: rest else (i, x) :: replaceDoc id d rest

/-- Put a new document at place `pos` of the iteration order. -/
def insertAt {α : Type} (pos : Nat) (p : String × α) (c : Coll α) : Coll α :=
  c.take pos ++ p :: c.drop pos

/-- Effect of a successful `ref.Set`: overwrite the document at `id`, or create it. -/
def putDoc {α : Type} (pos : Nat) (id : String) (d : α) (c : Coll α) : Coll α :=
  if (getDoc id c).isSome then replaceDoc id d c else insertAt pos (id, d) c

/-- The k-th `ref.Set(ctx, d)` of an operation: `none` when the write fails (the
collection is then left as it was). -/
def docSet {α : Type} (e : Env) (k : Nat) (id : String) (d : α) (c : Coll α) : Option (Coll α) :=
  if e.setErr k then none else some (putDoc e.pos id d c)

/-- The k-th `Doc(id).Get(ctx)` of an operation. -/
def docGet {α : Type} (e : Env) (k : Nat) (id : String) (c : Coll α) : Option α :=
  if e.getErr k then none else getDoc id c

/-- Go `openClient` (data.go 30-44); the connection itself carries no state. -/
def openClient (e : Env) : Except DaoError Unit :=
  if e.appErr 0 then .error .initApp
  else if e.firestoreErr 0 then .error .initFirestore
  else .ok ()

/-! ## Operations -/

/-- Loop of `ListUsers` (data.go 54-67): `k` counts the calls of `iter.Next`. -/
def listLoop (e : Env) : Nat → List (String × User) → List User → Except DaoError (List User)
  | k, [], results => if e.nextErr k then .error .iterate else .ok results
  | k, (id, d) :: rest, results =>
    if e.nextErr k then .error .iterate
    else listLoop e (k + 1) rest (results ++ [{ d with Id := id }])

/-- Go `ListUsers` (data.go 46-69). -/
def ListUsers (e : Env) (s : Store) : Except DaoError (List User) × Store :=
  match openClient e with
  | .error err => (.error err, s)
  | .ok _ => (listLoop e 0 s.users [], s)

/-- Go `CreateUser` (data.go 71-86). -/
def CreateUser (e : Env) (user : User) (s : Store) : Except DaoError String × Store :=
  match openClient e with
  | .error err => (.error err, s)
  | .ok _ =>
    let refID := e.newId
    let user := { user with Id := refID }
    match docSet e 0 refID user s.users with
    | none => (.error .addUser, s)
    | some users => (.ok refID, { s with users := users })

/-- First loop of `MarkUserActive` (data.go 97-113) over the result of the query
`Where("Active", "==", true)`: the k-th round does the k-th `iter.Next` and the k-th
`Set`. -/
def inactivateLoop (e : Env) :
    Nat → List (String × User) → Coll User → Except DaoError Unit × Coll User
  | k, [], users => if e.nextErr k then (.error .iterateActive, users) else (.ok (), users)
  | k, (id, d) :: rest, users =>
    if e.nextErr k then (.error .iterateActive, users)
    else
      match docSet e k id { d with Id := id, Active := false } users with
      | none => (.error .inactivate, users)
      | some users1 => inactivateLoop e (k + 1) rest users1

/-- Go `MarkUserActive` (data.go 88-129). -/
def MarkUserActive (e : Env) (id : String) (s : Store) : Except DaoError Unit × Store :=
  match openClient e with
  | .error err => (.error err, s)
  | .ok _ =>
    let active := s.users.filter (fun p => p.2.Active)
    match inactivateLoop e 0 active s.users with
    | (.error err, users1) => (.error err, { s with users := users1 })
    | (.ok _, users1) =>
      match docGet e 0 id users1 with
      | none => (.error .getUser, { s with users := users1 })
      | some d =>
        match docSet e active.length id { d with Id := id, Active := true } users1 with
        | none => (.error .activate, { s with users := users1 })
        | some users2 => (.ok (), { s with users := users2 })

/-- Go `UpdatePublicKey` (data.go 131-150). -/
def UpdatePublicKey (e : Env) (id : String) (publicKey : String) (s : Store) :
    Except DaoError Unit × Store :=
  match openClient e with
  | .error err => (.error err, s)
  | .ok _ =>
    match docGet e 0 id s.users with
    | none => (.error .getUser, s)
    | some d =>
      match docSet e 0 id { d with PublicKey := publicKey } s.users with
      | none => (.error .updatePublicKey, s)
      | some users => (.ok (), { s with users := users })

/-- Loop of `GetWordForTheDay` (data.go 188-202) over the result of the query
`Where("Date", "==", date)`. -/
def wordLoop (e : Env) : Nat → List (String × Word) → Except DaoError Word
  | k, [] => if e.nextErr k then .error .iterate else .ok zeroWord
  | k, (id, d) :: rest =>
    if e.nextErr k then .error .iterate
    else
      let wordObj : Word := { d with Id := id }
      if wordObj.Word ≠ "" then .ok wordObj else wordLoop e (k + 1) rest

/-- Go `GetWordForTheDay` (data.go 180-204). -/
def GetWordForTheDay (e : Env) (date : String) (s : Store) : Except DaoError Word × Store :=
  match openClient e with
  | .error err => (.error err, s)
  | .ok _ => (wordLoop e 0 (s.words.filter (fun p => p.2.Date = date)), s)

/-- Go `AddWord` (data.go 152-178). -/
def AddWord (e : Env) (word : Word) (s : Store) : Except DaoError String × Store :=
  match openClient e with
  | .error err => (.error err, s)
  | .ok _ =>
    match GetWordForTheDay e.nested word.Date s with
    | (.error err, s1) => (.error (.checkWord err), s1)
    | (.ok w, s1) =>
      if w.Id ≠ "" then (.error .wordExists, s1)
      else
        let refID := e.newId
        let word := { word with Id := refID }
        match docSet e 0 refID word s1.words with
        | none => (.error .addWord, s1)
        | some words => (.ok refID, { s1 with words := words })

/-! ## Predicates on stores -/

/-- No two documents of the collection share an identifier. -/
def UniqueIds {α : Type} (c : Coll α) : Prop := (docIds c).Nodup

/-- No document of the collection has the empty identifier. -/
def NonemptyIds {α : Type} (c : Coll α) : Prop := ∀ i ∈ docIds c, i ≠ ""

/-- Identifiers of the users whose `Active` flag is set, in iteration order. -/
def activeIds (c : Coll User) : List String := docIds (c.filter (fun p => p.2.Active))

/-- The single-active-user invariant. -/
def AtMostOneActive (s : Store) : Prop := (activeIds s.users).length ≤ 1

instance instDecidableUniqueIds {α : Type} (c : Coll α) : Decidable (UniqueIds c) :=
  inferInstanceAs (Decidable (docIds c).Nodup)

instance instDecidableAtMostOneActive (s : Store) : Decidable (AtMostOneActive s) :=
  inferInstanceAs (Decidable ((activeIds s.users).length ≤ 1))

/-! ## Definitions used by the statements -/

/-- The fields of a user document that activation is not meant to touch. -/
def SameProfile (d d1 : User) : Prop :=
  d1.Name = d.Name ∧ d1.TwitterHandle = d.TwitterHandle ∧ d1.PublicKey = d.PublicKey

/-- Phase (a) of `MarkUserActive` on the users collection of `s`. -/
def phaseA (e : Env) (s : Store) : Except DaoError Unit × Coll User :=
  inactivateLoop e 0 (s.users.filter (fun p => p.2.Active)) s.users

/-- Two users, the second one active: the store used in the examples. -/
def twoUsers : Store :=
  ⟨[("A", ⟨"A", "Ann", "@ann", "k1", false⟩), ("B", ⟨"B", "Bob", "@bob", "k2", true⟩)], []⟩

/-- The `User` built from a document: its fields, with `Id` set from the reference. -/
def userOfDoc (p : String × User) : User := { p.2 with Id := p.1 }

/-- The `Word` built from a document: its fields, with `Id` set from the reference. -/
def wordOfDoc (p : String × Word) : Word := { p.2 with Id := p.1 }

/-- Result of the query `Where("Date", "==", date)` on the words collection. -/
def wordsOn (date : String) (c : Coll Word) : List (String × Word) :=
  c.filter (fun p => p.2.Date = date)

/-- The spec's result of the day lookup: the first document, among those with
`Date == date`, whose `Word` text is non-empty, with `Id` filled from the document
identifier; the zero value when there is none. -/
def firstWordOn (date : String) (c : Coll Word) : Word :=
  match (wordsOn date c).find? (fun p => p.2.Word ≠ "") with
  | some p => wordOfDoc p
  | none => zeroWord

/-- Three word documents: an empty-text one and a real one on day 1, one on day 2. -/
def threeWords : Store :=
  ⟨[], [("w0", ⟨"w0", "", "2024-01-01", "A"⟩), ("w1", ⟨"zz", "apple", "2024-01-01", "A"⟩),
    ("w2", ⟨"w2", "pear", "2024-01-02", "B"⟩)]⟩

/-- A sequence of `CreateUser` calls, each with its own environment, run one after
the other: the returned identifiers and the final store, `none` when a call fails. -/
def createUsers : Store → List (Env × User) → Option (List String × Store)
  | s, [] => some ([], s)
  | s, (e, u) :: rest =>
    match (CreateUser e u s).1 with
    | .ok i => (createUsers (CreateUser e u s).2 rest).map (fun r => (i :: r.1, r.2))
    | .error _ => none

/-- The allocator assumption along a sequence of `CreateUser` calls: every call is
handed a non-empty identifier that is not present in the users collection at the
time of the call. -/
def allocFresh : Store → List (Env × User) → Bool
  | _, [] => true
  | s, (e, u) :: rest =>
    decide (e.newId ≠ "") && !(getDoc e.newId s.users).isSome &&
      allocFresh (CreateUser e u s).2 rest

/-- Two `CreateUser` calls on the store of the examples. -/
def twoCreates : List (Env × User) :=
  [(Env.ok "C" 0, ⟨"", "Cid", "@cid", "k3", false⟩), (Env.ok "D" 1, ⟨"x", "Dee", "@dee", "", true⟩)]

/-- A call of one of the six operations of the package. -/
inductive Op where
  | listUsers
  | createUser (user : User)
  | markUserActive (id : String)
  | updatePublicKey (id : String) (publicKey : String)
  | addWord (word : Word)
  | getWordForTheDay (date : String)

/-- Whether a Go result carries no error. -/
def isOk {ε α : Type} : Except ε α → Bool
  | .ok _ => true
  | .error _ => false

/-- Run one call: whether it returned no error, and the store after it. -/
def Op.run (e : Env) : Op → Store → Bool × Store
  | .listUsers, s => (isOk (ListUsers e s).1, (ListUsers e s).2)
  | .createUser user, s => (isOk (CreateUser e user s).1, (CreateUser e user s).2)
  | .markUserActive id, s => (isOk (MarkUserActive e id s).1, (MarkUserActive e id s).2)
  | .updatePublicKey id k, s => (isOk (UpdatePublicKey e id k s).1, (UpdatePublicKey e id k s).2)
  | .addWord word, s => (isOk (AddWord e word s).1, (AddWord e word s).2)
  | .getWordForTheDay date, s => (isOk (GetWordForTheDay e date s).1, (GetWordForTheDay e date s).2)

/-- Number of users whose `Active` flag is set. -/
def activeCount (c : Coll User) : Nat := (c.filter (fun p => p.2.Active)).length

/-! ## The store client: basic facts -/

theorem docIds_replaceDoc {α : Type} (id : String) (d : α) (c : Coll α) :
    docIds (replaceDoc id d c) = docIds c := by
  induction c with
  | nil => rfl
  | cons p rest ih =>
    obtain ⟨i, x⟩ := p
    by_cases h : i = id
    · simp [replaceDoc, docIds, h]
    · simpa [replaceDoc, docIds, h] using ih

theorem getDoc_replaceDoc_self {α : Type} (id : String) (d : α) (c : Coll α)
    (h : (getDoc id c).isSome) : getDoc id (replaceDoc id d c) = some d := by
  induction c with
  | nil => simp [getDoc] at h
  | cons p rest ih =>
    obtain ⟨i, x⟩ := p
    by_cases hi : i = id
    · simp [replaceDoc, getDoc, hi]
    · simp only [getDoc, hi, if_false] at h
      simp [replaceDoc, getDoc, hi, ih h]

theorem getDoc_replaceDoc_ne {α : Type} (id x : String) (d : α) (c : Coll α) (hx : x ≠ id) :
    getDoc x (replaceDoc id d c) = getDoc x c := by
  induction c with
  | nil => rfl
  | cons p rest ih =>
    obtain ⟨i, y⟩ := p
    by_cases hi : i = id
    · have hne : ¬ id = x := fun h => hx h.symm
      have hne2 : ¬ i = x := fun h => hx (h.symm.trans hi)
      simp [replaceDoc, getDoc, hi, hne]
    · by_cases hix : i = x
      · subst hix
        simp [replaceDoc, getDoc, hi]
      · simp [replaceDoc, getDoc, hi, hix, ih]

theorem getDoc_append {α : Type} (x : String) (a b : Coll α) :
    getDoc x (a ++ b) = (getDoc x a).orElse (fun _ => getDoc x b) := by
  induction a with
  | nil => rfl
  | cons p rest ih =>
    obtain ⟨i, y⟩ := p
    by_cases hi : i = x
    · simp [getDoc, hi]
    · simp [getDoc, hi, ih]

theorem getDoc_eq_none_iff {α : Type} (x : String) (c : Coll α) :
    getDoc x c = none ↔ x ∉ docIds c := by
  induction c with
  | nil => simp [getDoc, docIds]
  | cons p rest ih =>
    obtain ⟨i, y⟩ := p
    by_cases hi : i = x
    · simp [getDoc, docIds, hi]
    · have hne : ¬ x = i := fun h => hi h.symm
      simpa [getDoc, docIds, hi, hne] using ih

theorem getDoc_isSome_iff {α : Type} (x : String) (c : Coll α) :
    (getDoc x c).isSome ↔ x ∈ docIds c := by
  rw [← not_iff_not, ← getDoc_eq_none_iff]
  cases getDoc x c <;> simp

theorem mem_of_getDoc {α : Type} {x : String} {d : α} {c : Coll α}
    (h : getDoc x c = some d) : (x, d) ∈ c := by
  induction c with
  | nil => simp [getDoc] at h
  | cons p rest ih =>
    obtain ⟨i, y⟩ := p
    by_cases hi : i = x
    · simp only [getDoc, hi, if_true, Option.some.injEq] at h
      simp [hi, h]
    · simp only [getDoc, hi, if_false] at h
      exact List.mem_cons_of_mem _ (ih h)

theorem mem_docIds_of_mem {α : Type} {x : String} {d : α} {c : Coll α}
    (h : (x, d) ∈ c) : x ∈ docIds c :=
  List.mem_map.mpr ⟨(x, d), h, rfl⟩

theorem getDoc_of_mem {α : Type} {x : String} {d : α} {c : Coll α}
    (hu : UniqueIds c) (h : (x, d) ∈ c) : getDoc x c = some d := by
  induction c with
  | nil => simp at h
  | cons p rest ih =>
    obtain ⟨i, y⟩ := p
    have hnd : i ∉ docIds rest ∧ (docIds rest).Nodup := by
      simpa [UniqueIds, docIds] using hu
    rcases List.mem_cons.mp h with heq | hmem
    · cases heq
      simp [getDoc]
    · have hne : ¬ i = x := by
        intro hix
        exact hnd.1 (hix ▸ mem_docIds_of_mem hmem)
      simp only [getDoc, hne, if_false]
      exact ih hnd.2 hmem

theorem getDoc_insertAt_self {α : Type} (pos : Nat) (id : String) (d : α) (c : Coll α)
    (h : getDoc id c = none) : getDoc id (insertAt pos (id, d) c) = some d := by
  have h1 : getDoc id (c.take pos) = none := by
    rw [getDoc_eq_none_iff] at h ⊢
    intro hm
    exact h (List.mem_map.mpr (by
      obtain ⟨p, hp, hpe⟩ := List.mem_map.mp hm
      exact ⟨p, List.mem_of_mem_take hp, hpe⟩))
  simp [insertAt, getDoc_append, h1, getDoc]

theorem getDoc_insertAt_ne {α : Type} (pos : Nat) (id x : String) (d : α) (c : Coll α)
    (hx : x ≠ id) : getDoc x (insertAt pos (id, d) c) = getDoc x c := by
  have hne : ¬ id = x := fun h => hx h.symm
  have hc : getDoc x c = getDoc x (c.take pos ++ c.drop pos) := by
    rw [List.take_append_drop]
  rw [hc, insertAt, getDoc_append, getDoc_append]
  simp [getDoc, hne]

theorem getDoc_putDoc_self {α : Type} (pos : Nat) (id : String) (d : α) (c : Coll α) :
    getDoc id (putDoc pos id d c) = some d := by
  unfold putDoc
  split
  · next h => exact getDoc_replaceDoc_self id d c h
  · next h =>
    apply getDoc_insertAt_self
    cases hg : getDoc id c with
    | none => rfl
    | some y => simp [hg] at h

theorem getDoc_putDoc_ne {α : Type} (pos : Nat) (id x : String) (d : α) (c : Coll α)
    (hx : x ≠ id) : getDoc x (putDoc pos id d c) = getDoc x c := by
  unfold putDoc
  split
  · exact getDoc_replaceDoc_ne id x d c hx
  · exact getDoc_insertAt_ne pos id x d c hx

theorem docIds_putDoc_of_isSome {α : Type} (pos : Nat) (id : String) (d : α) (c : Coll α)
    (h : (getDoc id c).isSome) : docIds (putDoc pos id d c) = docIds c := by
  simp [putDoc, h, docIds_replaceDoc]

theorem docIds_insertAt_perm {α : Type} (pos : Nat) (p : String × α) (c : Coll α) :
    (docIds (insertAt pos p c)).Perm (p.1 :: docIds c) := by
  have h1 : docIds (insertAt pos p c) = docIds (c.take pos) ++ p.1 :: docIds (c.drop pos) := by
    simp [insertAt, docIds]
  have h2 : docIds c = docIds (c.take pos) ++ docIds (c.drop pos) := by
    simp only [docIds, ← List.map_append, List.take_append_drop]
  rw [h1, h2]
  exact List.perm_middle

theorem uniqueIds_putDoc {α : Type} (pos : Nat) (id : String) (d : α) (c : Coll α)
    (hu : UniqueIds c) : UniqueIds (putDoc pos id d c) := by
  unfold putDoc
  split
  · simpa [UniqueIds, docIds_replaceDoc] using hu
  · next h =>
    have hn : id ∉ docIds c := by
      rw [← getDoc_eq_none_iff]
      cases hg : getDoc id c with
      | none => rfl
      | some y => simp [hg] at h
    unfold UniqueIds
    rw [(docIds_insertAt_perm pos (id, d) c).nodup_iff]
    exact List.nodup_cons.mpr ⟨hn, hu⟩

/-! ## `MarkUserActive`: the inactivation loop -/

theorem SameProfile.rfl1 (d : User) : SameProfile d d := ⟨rfl, rfl, rfl⟩

theorem SameProfile.trans1 {a b c : User} (h1 : SameProfile a b) (h2 : SameProfile b c) :
    SameProfile a c :=
  ⟨h2.1.trans h1.1, h2.2.1.trans h1.2.1, h2.2.2.trans h1.2.2⟩

theorem SameProfile.symm1 {a b : User} (h : SameProfile a b) : SameProfile b a :=
  ⟨h.1.symm, h.2.1.symm, h.2.2.symm⟩

theorem inactivateLoop_nil (e : Env) (k : Nat) (users : Coll User) :
    inactivateLoop e k [] users =
      if e.nextErr k = true then (.error .iterateActive, users) else (.ok (), users) := by
  simp only [inactivateLoop]

theorem inactivateLoop_cons (e : Env) (k : Nat) (i : String) (d : User)
    (rest : List (String × User)) (users : Coll User) :
    inactivateLoop e k ((i, d) :: rest) users =
      if e.nextErr k = true then (.error .iterateActive, users)
      else if e.setErr k = true then (.error .inactivate, users)
      else inactivateLoop e (k + 1) rest
        (putDoc e.pos i { d with Id := i, Active := false } users) := by
  cases hn : e.nextErr k <;> cases hs : e.setErr k <;> simp [inactivateLoop, docSet, hn, hs]

theorem inactivateLoop_docIds (e : Env) (snap : List (String × User)) :
    ∀ (k : Nat) (users : Coll User), (∀ p ∈ snap, p.1 ∈ docIds users) →
      docIds (inactivateLoop e k snap users).2 = docIds users := by
  induction snap with
  | nil =>
    intro k users _
    rw [inactivateLoop_nil]
    split <;> rfl
  | cons p rest ih =>
    intro k users h
    obtain ⟨i, d⟩ := p
    rw [inactivateLoop_cons]
    split
    · rfl
    · split
      · rfl
      · have hi : (getDoc i users).isSome := (getDoc_isSome_iff i users).mpr (h (i, d) (by simp))
        have hids := docIds_putDoc_of_isSome e.pos i { d with Id := i, Active := false } users hi
        rw [ih (k + 1) _ (by
          intro q hq
          rw [hids]
          exact h q (List.mem_cons_of_mem _ hq)), hids]

theorem inactivateLoop_frame (e : Env) (snap : List (String × User)) :
    ∀ (k : Nat) (users : Coll User),
      (∀ p ∈ snap, ∃ d0, getDoc p.1 users = some d0 ∧ SameProfile d0 p.2) →
      ∀ x d0, getDoc x users = some d0 →
        ∃ d1, getDoc x (inactivateLoop e k snap users).2 = some d1 ∧ SameProfile d0 d1 := by
  induction snap with
  | nil =>
    intro k users _ x d0 hx
    refine ⟨d0, ?_, SameProfile.rfl1 d0⟩
    rw [inactivateLoop_nil]
    split <;> exact hx
  | cons p rest ih =>
    intro k users h x d0 hx
    obtain ⟨i, d⟩ := p
    rw [inactivateLoop_cons]
    split
    · exact ⟨d0, hx, SameProfile.rfl1 d0⟩
    · split
      · exact ⟨d0, hx, SameProfile.rfl1 d0⟩
      · obtain ⟨di, hdi, hpi⟩ := h (i, d) (by simp)
        have hnew : SameProfile di { d with Id := i, Active := false } := hpi
        have hrest : ∀ q ∈ rest, ∃ q0,
            getDoc q.1 (putDoc e.pos i { d with Id := i, Active := false } users) = some q0 ∧
              SameProfile q0 q.2 := by
          intro q hq
          obtain ⟨q0, hq0, hpq⟩ := h q (List.mem_cons_of_mem _ hq)
          by_cases hqi : q.1 = i
          · refine ⟨_, by rw [hqi]; exact getDoc_putDoc_self _ _ _ _, ?_⟩
            rw [hqi, hdi] at hq0
            cases hq0
            exact SameProfile.trans1 (SameProfile.symm1 hnew) hpq
          · exact ⟨q0, by rw [getDoc_putDoc_ne _ _ _ _ _ hqi]; exact hq0, hpq⟩
        by_cases hxi : x = i
        · subst hxi
          rw [hdi] at hx
          cases hx
          obtain ⟨d1, hd1, hp1⟩ := ih (k + 1) _ hrest x _ (getDoc_putDoc_self _ _ _ _)
          exact ⟨d1, hd1, SameProfile.trans1 hnew hp1⟩
        · exact ih (k + 1) _ hrest x d0 (by rw [getDoc_putDoc_ne _ _ _ _ _ hxi]; exact hx)

theorem inactivateLoop_inactive (e : Env) (snap : List (String × User)) :
    ∀ (k : Nat) (users : Coll User), (inactivateLoop e k snap users).1 = .ok () →
      ∀ x d1, getDoc x (inactivateLoop e k snap users).2 = some d1 → d1.Active = true →
        x ∉ docIds snap ∧ getDoc x users = some d1 := by
  induction snap with
  | nil =>
    intro k users _ x d1 hx _
    refine ⟨by simp [docIds], ?_⟩
    rw [inactivateLoop_nil] at hx
    split at hx <;> exact hx
  | cons p rest ih =>
    intro k users hok x d1 hx hact
    obtain ⟨i, d⟩ := p
    rw [inactivateLoop_cons] at hok hx
    split at hok
    · cases hok
    · rename_i hnext
      rw [if_neg hnext] at hx
      split at hok
      · cases hok
      · rename_i hset
        rw [if_neg hset] at hx
        obtain ⟨hnot, hget⟩ := ih (k + 1) _ hok x d1 hx hact
        have hxi : x ≠ i := by
          intro hxi
          subst hxi
          rw [getDoc_putDoc_self] at hget
          cases hget
          simp at hact
        rw [getDoc_putDoc_ne _ _ _ _ _ hxi] at hget
        refine ⟨?_, hget⟩
        intro hmem
        have hmem1 : x ∈ i :: docIds rest := hmem
        rcases List.mem_cons.mp hmem1 with h1 | h2
        · exact hxi h1
        · exact hnot h2

theorem inactivateLoop_ok (e : Env) (snap : List (String × User)) :
    ∀ (k : Nat) (users : Coll User),
      (∀ j, j ≤ snap.length → e.nextErr (k + j) = false) →
      (∀ j, j < snap.length → e.setErr (k + j) = false) →
      (inactivateLoop e k snap users).1 = .ok () := by
  induction snap with
  | nil =>
    intro k users hn _
    have h0 := hn 0 (Nat.le_refl _)
    simp only [Nat.add_zero] at h0
    simp [inactivateLoop, h0]
  | cons p rest ih =>
    intro k users hn hs
    obtain ⟨i, d⟩ := p
    have h0 := hn 0 (Nat.zero_le _)
    have s0 := hs 0 (by simp)
    simp only [Nat.add_zero] at h0 s0
    simp only [inactivateLoop, h0, docSet, s0]
    apply ih
    · intro j hj
      have := hn (j + 1) (by simpa using hj)
      rwa [Nat.add_assoc, Nat.add_comm 1 j]
    · intro j hj
      have := hs (j + 1) (by simpa using hj)
      rwa [Nat.add_assoc, Nat.add_comm 1 j]

/-! ## `MarkUserActive`: the two phases -/

theorem MarkUserActive_cases (e : Env) (id : String) (s : Store) :
    ((∃ err, (MarkUserActive e id s).1 = .error err) ∧
      ((MarkUserActive e id s).2 = s ∨
        (MarkUserActive e id s).2 = { s with users := (phaseA e s).2 })) ∨
    (∃ d, openClient e = .ok () ∧ (phaseA e s).1 = .ok () ∧ e.getErr 0 = false ∧
      getDoc id (phaseA e s).2 = some d ∧
      e.setErr (s.users.filter (fun p => p.2.Active)).length = false ∧
      MarkUserActive e id s = (.ok (),
        { s with users := putDoc e.pos id { d with Id := id, Active := true } (phaseA e s).2 })) := by
  unfold MarkUserActive
  cases hopen : openClient e with
  | error err => exact Or.inl ⟨⟨err, rfl⟩, Or.inl rfl⟩
  | ok u =>
    cases u
    simp only []
    rcases hA : inactivateLoop e 0 (s.users.filter (fun p => p.2.Active)) s.users with ⟨r, users1⟩
    have hA2 : (phaseA e s).2 = users1 := by simp [phaseA, hA]
    have hA1 : (phaseA e s).1 = r := by simp [phaseA, hA]
    cases r with
    | error err => exact Or.inl ⟨⟨err, rfl⟩, Or.inr (by simp [hA2])⟩
    | ok u =>
      cases u
      simp only []
      cases hg : e.getErr 0 with
      | true =>
        simp only [docGet, hg, if_true]
        exact Or.inl ⟨⟨_, rfl⟩, Or.inr (by simp [hA2])⟩
      | false =>
        cases hd : getDoc id users1 with
        | none =>
          simp only [docGet, hg, hd]
          exact Or.inl ⟨⟨_, rfl⟩, Or.inr (by simp [hA2])⟩
        | some d =>
          cases hs : e.setErr (s.users.filter (fun p => p.2.Active)).length with
          | true =>
            simp only [docGet, hg, hd, docSet, hs]
            exact Or.inl ⟨⟨_, rfl⟩, Or.inr (by simp [hA2])⟩
          | false =>
            simp only [docGet, hg, hd, docSet, hs]
            refine Or.inr ⟨d, ?_, ?_, ?_, ?_, ?_, ?_⟩ <;> simp [hA1, hA2, hd]

theorem phaseA_docIds (e : Env) (s : Store) : docIds (phaseA e s).2 = docIds s.users := by
  apply inactivateLoop_docIds
  intro p hp
  exact mem_docIds_of_mem (List.mem_of_mem_filter hp)

theorem phaseA_frame (e : Env) (s : Store) (hu : UniqueIds s.users) :
    ∀ x d0, getDoc x s.users = some d0 →
      ∃ d1, getDoc x (phaseA e s).2 = some d1 ∧ SameProfile d0 d1 := by
  apply inactivateLoop_frame
  intro p hp
  exact ⟨p.2, getDoc_of_mem hu (List.mem_of_mem_filter hp), SameProfile.rfl1 _⟩

theorem phaseA_uniqueIds (e : Env) (s : Store) (hu : UniqueIds s.users) :
    UniqueIds (phaseA e s).2 := by
  unfold UniqueIds
  rw [phaseA_docIds]
  exact hu

theorem phaseA_inactive (e : Env) (s : Store) (hu : UniqueIds s.users)
    (hok : (phaseA e s).1 = .ok ()) : ∀ p ∈ (phaseA e s).2, p.2.Active = false := by
  intro p hp
  cases hact : p.2.Active with
  | false => rfl
  | true =>
    exfalso
    have hget : getDoc p.1 (phaseA e s).2 = some p.2 :=
      getDoc_of_mem (phaseA_uniqueIds e s hu) hp
    obtain ⟨hnot, hold⟩ := inactivateLoop_inactive e _ 0 s.users hok p.1 p.2 hget hact
    apply hnot
    have hmem : (p.1, p.2) ∈ s.users := mem_of_getDoc hold
    exact mem_docIds_of_mem (List.mem_filter.mpr ⟨hmem, by simpa using hact⟩)

theorem activeIds_eq_nil {c : Coll User} (h : ∀ p ∈ c, p.2.Active = false) : activeIds c = [] := by
  unfold activeIds docIds
  rw [List.map_eq_nil_iff, List.filter_eq_nil_iff]
  intro p hp
  simp [h p hp]

theorem activeIds_replaceDoc (id : String) (d : User) (hd : d.Active = true) :
    ∀ (c : Coll User), (∀ p ∈ c, p.2.Active = false) → id ∈ docIds c →
      activeIds (replaceDoc id d c) = [id] := by
  intro c
  induction c with
  | nil => intro _ hmem; simp [docIds] at hmem
  | cons p rest ih =>
    intro hall hmem
    obtain ⟨i, x⟩ := p
    have hrest : ∀ q ∈ rest, q.2.Active = false := fun q hq => hall q (List.mem_cons_of_mem _ hq)
    by_cases hi : i = id
    · have hnil := activeIds_eq_nil hrest
      unfold activeIds docIds at hnil ⊢
      simp only [replaceDoc, hi, if_true, List.filter_cons, hd, List.map_cons, hnil]
    · have hx : x.Active = false := hall (i, x) (by simp)
      have hmem1 : id ∈ i :: docIds rest := hmem
      have hmem2 : id ∈ docIds rest := by
        rcases List.mem_cons.mp hmem1 with h1 | h2
        · exact absurd h1.symm hi
        · exact h2
      have := ih hrest hmem2
      unfold activeIds docIds at this ⊢
      simp only [replaceDoc, hi, if_false, List.filter_cons, hx]
      simpa using this

/-! ## `MarkUserActive`: results -/

theorem MarkUserActive_ok_activeIds (e : Env) (id : String) (s : Store)
    (hu : UniqueIds s.users) (hok : (MarkUserActive e id s).1 = .ok ()) :
    activeIds (MarkUserActive e id s).2.users = [id] := by
  rcases MarkUserActive_cases e id s with ⟨⟨err, herr⟩, _⟩ | ⟨d, _, hA, _, hd, _, heq⟩
  · rw [herr] at hok
    cases hok
  · have hsome : (getDoc id (phaseA e s).2).isSome := by simp [hd]
    rw [heq]
    show activeIds (putDoc e.pos id { d with Id := id, Active := true } (phaseA e s).2) = [id]
    have hput : putDoc e.pos id { d with Id := id, Active := true } (phaseA e s).2 =
        replaceDoc id { d with Id := id, Active := true } (phaseA e s).2 := by
      simp [putDoc, hsome]
    rw [hput]
    exact activeIds_replaceDoc id _ rfl _ (phaseA_inactive e s hu hA)
      ((getDoc_isSome_iff _ _).mp hsome)

/-- C1: on a store whose user documents have distinct identifiers, when
`MarkUserActive(id)` returns no error, the identifiers of the users with
`Active == true` in the resulting store are exactly `[id]`: the document at `id` is
active, every other document is inactive, and the collection holds the same documents
as before (so after `MarkUserActive(A)` then `MarkUserActive(B)`, A is inactive and B
active). -/
theorem markUserActive_exactly_one (e : Env) (id : String) (s : Store)
    (hu : UniqueIds s.users) (hok : (MarkUserActive e id s).1 = .ok ()) :
    activeIds (MarkUserActive e id s).2.users = [id] ∧
    (∃ d, getDoc id (MarkUserActive e id s).2.users = some d ∧ d.Active = true) ∧
    (∀ x d, x ≠ id → getDoc x (MarkUserActive e id s).2.users = some d → d.Active = false) ∧
    docIds (MarkUserActive e id s).2.users = docIds s.users := by
  refine ⟨MarkUserActive_ok_activeIds e id s hu hok, ?_⟩
  rcases MarkUserActive_cases e id s with ⟨⟨err, herr⟩, _⟩ | ⟨d, _, hA, _, hd, _, heq⟩
  · rw [herr] at hok
    cases hok
  · have hall := phaseA_inactive e s hu hA
    have hsome : (getDoc id (phaseA e s).2).isSome := by simp [hd]
    rw [heq]
    refine ⟨⟨_, getDoc_putDoc_self _ _ _ _, rfl⟩, ?_, ?_⟩
    · intro x dx hx hget
      have hget1 : getDoc x (putDoc e.pos id { d with Id := id, Active := true }
          (phaseA e s).2) = some dx := hget
      rw [getDoc_putDoc_ne _ _ _ _ _ hx] at hget1
      exact hall (x, dx) (mem_of_getDoc hget1)
    · show docIds (putDoc e.pos id { d with Id := id, Active := true } (phaseA e s).2) = _
      rw [docIds_putDoc_of_isSome _ _ _ _ hsome, phaseA_docIds]

/-- The scenario of C1: `MarkUserActive("A")` then `MarkUserActive("B")` on a store
holding the users A and B. -/
theorem markUserActive_exactly_one_witness :
    UniqueIds (MarkUserActive (Env.ok "" 0) "A" twoUsers).2.users ∧
    (MarkUserActive (Env.ok "" 0) "B" (MarkUserActive (Env.ok "" 0) "A" twoUsers).2).1 = .ok () ∧
    activeIds (MarkUserActive (Env.ok "" 0) "B"
      (MarkUserActive (Env.ok "" 0) "A" twoUsers).2).2.users = ["B"] :=
  ⟨by decide, rfl,
    (markUserActive_exactly_one (Env.ok "" 0) "B" (MarkUserActive (Env.ok "" 0) "A" twoUsers).2
      (by decide) rfl).1⟩

/-- C7: when `id` does not resolve to a document and phase (a) runs to its end (the
connection opens, the stream of active users and the writes of phase (a) do not
fail), `MarkUserActive(id)` returns the error "failed to get user" and leaves a store
in which no user is active; no document is created or removed. -/
theorem markUserActive_missing_id (e : Env) (id : String) (s : Store)
    (hu : UniqueIds s.users) (hopen : openClient e = .ok ())
    (hnext : ∀ k, k ≤ (activeIds s.users).length → e.nextErr k = false)
    (hset : ∀ k, k < (activeIds s.users).length → e.setErr k = false)
    (hid : getDoc id s.users = none) :
    (MarkUserActive e id s).1 = .error .getUser ∧
    activeIds (MarkUserActive e id s).2.users = [] ∧
    docIds (MarkUserActive e id s).2.users = docIds s.users := by
  have hlen : (activeIds s.users).length = (s.users.filter (fun p => p.2.Active)).length := by
    simp [activeIds, docIds]
  have hA : (phaseA e s).1 = .ok () := by
    apply inactivateLoop_ok
    · intro j hj
      rw [Nat.zero_add]
      exact hnext j (hlen ▸ hj)
    · intro j hj
      rw [Nat.zero_add]
      exact hset j (hlen ▸ hj)
  have hnone : getDoc id (phaseA e s).2 = none := by
    rw [getDoc_eq_none_iff, phaseA_docIds, ← getDoc_eq_none_iff]
    exact hid
  have hres : MarkUserActive e id s = (.error .getUser, { s with users := (phaseA e s).2 }) := by
    unfold MarkUserActive
    rw [hopen]
    simp only []
    rcases hr : inactivateLoop e 0 (s.users.filter (fun p => p.2.Active)) s.users with ⟨r, users1⟩
    have hA1 : r = .ok () := by simpa [phaseA, hr] using hA
    have hA2 : (phaseA e s).2 = users1 := by simp [phaseA, hr]
    subst hA1
    rw [hA2] at hnone
    simp [docGet, hnone, hA2]
  rw [hres]
  exact ⟨rfl, activeIds_eq_nil (phaseA_inactive e s hu hA), phaseA_docIds e s⟩

/-- Example for C7: activating the unknown identifier "Z" deactivates B and fails. -/
theorem markUserActive_missing_id_witness :
    (MarkUserActive (Env.ok "" 0) "Z" twoUsers).1 = .error .getUser ∧
    activeIds (MarkUserActive (Env.ok "" 0) "Z" twoUsers).2.users = [] ∧
    activeIds twoUsers.users = ["B"] :=
  have h := markUserActive_missing_id (Env.ok "" 0) "Z" twoUsers (by decide) rfl
    (fun _ _ => rfl) (fun _ _ => rfl) rfl
  ⟨h.1, h.2.1, by decide⟩

/-- C10: on a store whose user documents have distinct identifiers, whatever
`MarkUserActive(id)` returns (success or any error), the users collection holds the
same document identifiers in the same order as before, every document keeps its
`Name`, `TwitterHandle` and `PublicKey`, and the words collection is untouched. -/
theorem markUserActive_frame (e : Env) (id : String) (s : Store) (hu : UniqueIds s.users) :
    docIds (MarkUserActive e id s).2.users = docIds s.users ∧
    (∀ x d, getDoc x s.users = some d →
      ∃ d1, getDoc x (MarkUserActive e id s).2.users = some d1 ∧
        d1.Name = d.Name ∧ d1.TwitterHandle = d.TwitterHandle ∧ d1.PublicKey = d.PublicKey) ∧
    (MarkUserActive e id s).2.words = s.words := by
  rcases MarkUserActive_cases e id s with ⟨_, h | h⟩ | ⟨d, _, _, _, hd, _, heq⟩
  · rw [h]
    exact ⟨rfl, fun x d hx => ⟨d, hx, rfl, rfl, rfl⟩, rfl⟩
  · rw [h]
    exact ⟨phaseA_docIds e s, phaseA_frame e s hu, rfl⟩
  · have hsome : (getDoc id (phaseA e s).2).isSome := by simp [hd]
    rw [heq]
    refine ⟨?_, ?_, rfl⟩
    · show docIds (putDoc e.pos id { d with Id := id, Active := true } (phaseA e s).2) = _
      rw [docIds_putDoc_of_isSome _ _ _ _ hsome, phaseA_docIds]
    · intro x d0 hx
      obtain ⟨d1, hd1, hp⟩ := phaseA_frame e s hu x d0 hx
      show ∃ d2, getDoc x (putDoc e.pos id { d with Id := id, Active := true }
        (phaseA e s).2) = some d2 ∧ _
      by_cases hxi : x = id
      · subst hxi
        rw [hd] at hd1
        cases hd1
        exact ⟨_, getDoc_putDoc_self _ _ _ _, hp⟩
      · exact ⟨d1, by rw [getDoc_putDoc_ne _ _ _ _ _ hxi]; exact hd1, hp⟩

/-- Example for C10: the second write of the call fails, after B was deactivated. -/
theorem markUserActive_frame_witness :
    UniqueIds twoUsers.users ∧
    (MarkUserActive ⟨"", 0, fun _ => false, fun _ => false, fun _ => false, fun _ => false,
      fun k => decide (k = 1)⟩ "A" twoUsers).1 = .error .activate ∧
    docIds (MarkUserActive ⟨"", 0, fun _ => false, fun _ => false, fun _ => false,
      fun _ => false, fun k => decide (k = 1)⟩ "A" twoUsers).2.users = ["A", "B"] :=
  ⟨by decide, rfl,
    (markUserActive_frame ⟨"", 0, fun _ => false, fun _ => false, fun _ => false,
      fun _ => false, fun k => decide (k = 1)⟩ "A" twoUsers (by decide)).1⟩

/-! ## `ListUsers` -/

theorem listLoop_ok (e : Env) (docs : List (String × User)) :
    ∀ (k : Nat) (acc : List User), (∀ j, j ≤ docs.length → e.nextErr (k + j) = false) →
      listLoop e k docs acc = .ok (acc ++ docs.map userOfDoc) := by
  induction docs with
  | nil =>
    intro k acc h
    have h0 := h 0 (Nat.le_refl _)
    simp only [Nat.add_zero] at h0
    simp [listLoop, h0]
  | cons p rest ih =>
    intro k acc h
    obtain ⟨i, d⟩ := p
    have h0 := h 0 (Nat.zero_le _)
    simp only [Nat.add_zero] at h0
    simp only [listLoop, h0]
    rw [ih (k + 1) _ (by
      intro j hj
      have := h (j + 1) (by simpa using hj)
      rwa [Nat.add_assoc, Nat.add_comm 1 j])]
    simp [userOfDoc]

theorem listLoop_error (e : Env) (docs : List (String × User)) :
    ∀ (k : Nat) (acc : List User) (j : Nat), j ≤ docs.length → e.nextErr (k + j) = true →
      listLoop e k docs acc = .error .iterate := by
  induction docs with
  | nil =>
    intro k acc j hj h
    have hj0 : j = 0 := by simpa using hj
    subst hj0
    simp only [Nat.add_zero] at h
    simp [listLoop, h]
  | cons p rest ih =>
    intro k acc j hj h
    obtain ⟨i, d⟩ := p
    cases hk : e.nextErr k with
    | true => simp [listLoop, hk]
    | false =>
      simp only [listLoop, hk]
      cases j with
      | zero =>
        simp only [Nat.add_zero] at h
        rw [hk] at h
        cases h
      | succ j1 =>
        apply ih (k + 1) _ j1 (by simpa using hj)
        rwa [Nat.add_assoc, Nat.add_comm 1 j1]

/-- C9: once the connection is open, `ListUsers` returns one `User` per stored
document, in iteration order, each with the document's fields and `Id` set to the
document identifier, provided no `iter.Next` fails; when some `iter.Next` fails (at
any position up to the closing one) it returns the error "failed to iterate" and
no users.  In every case the store is left unchanged. -/
theorem listUsers_spec (e : Env) (s : Store) (hopen : openClient e = .ok ()) :
    ((∀ k, k ≤ s.users.length → e.nextErr k = false) →
      ListUsers e s = (.ok (s.users.map userOfDoc), s)) ∧
    ((∃ k, k ≤ s.users.length ∧ e.nextErr k = true) →
      ListUsers e s = (.error .iterate, s)) ∧
    (∀ p ∈ s.users, (userOfDoc p).Id = p.1 ∧ (userOfDoc p).Name = p.2.Name ∧
      (userOfDoc p).TwitterHandle = p.2.TwitterHandle ∧
      (userOfDoc p).PublicKey = p.2.PublicKey ∧ (userOfDoc p).Active = p.2.Active) ∧
    (ListUsers e s).2 = s := by
  refine ⟨?_, ?_, ?_, ?_⟩
  · intro h
    simp only [ListUsers, hopen]
    rw [listLoop_ok e s.users 0 [] (by intro j hj; rw [Nat.zero_add]; exact h j hj)]
    simp
  · rintro ⟨k, hk, herr⟩
    simp only [ListUsers, hopen]
    rw [listLoop_error e s.users 0 [] k hk (by rw [Nat.zero_add]; exact herr)]
  · intro p _
    exact ⟨rfl, rfl, rfl, rfl, rfl⟩
  · simp only [ListUsers, hopen]

/-- Example for C9: listing two users, and a stream that fails at its second read. -/
theorem listUsers_spec_witness :
    ListUsers (Env.ok "" 0) twoUsers =
      (.ok [⟨"A", "Ann", "@ann", "k1", false⟩, ⟨"B", "Bob", "@bob", "k2", true⟩], twoUsers) ∧
    ListUsers ⟨"", 0, fun _ => false, fun _ => false, fun k => decide (k = 1), fun _ => false,
      fun _ => false⟩ twoUsers = (.error .iterate, twoUsers) :=
  ⟨(listUsers_spec (Env.ok "" 0) twoUsers rfl).1 (fun _ _ => rfl),
    (listUsers_spec ⟨"", 0, fun _ => false, fun _ => false, fun k => decide (k = 1),
      fun _ => false, fun _ => false⟩ twoUsers rfl).2.1 ⟨1, by decide, rfl⟩⟩

/-! ## `GetWordForTheDay` -/

theorem wordLoop_ok (e : Env) (docs : List (String × Word)) :
    ∀ (k : Nat), (∀ j, j ≤ docs.length → e.nextErr (k + j) = false) →
      wordLoop e k docs = .ok (match docs.find? (fun p => p.2.Word ≠ "") with
        | some p => wordOfDoc p
        | none => zeroWord) := by
  induction docs with
  | nil =>
    intro k h
    have h0 := h 0 (Nat.le_refl _)
    simp only [Nat.add_zero] at h0
    simp [wordLoop, h0]
  | cons p rest ih =>
    intro k h
    obtain ⟨i, d⟩ := p
    have h0 := h 0 (Nat.zero_le _)
    simp only [Nat.add_zero] at h0
    by_cases hw : d.Word = ""
    · simp only [wordLoop, h0, hw]
      rw [ih (k + 1) (by
        intro j hj
        have := h (j + 1) (by simpa using hj)
        rwa [Nat.add_assoc, Nat.add_comm 1 j])]
      simp [List.find?, hw]
    · simp [wordLoop, h0, hw, List.find?, wordOfDoc]

/-- C5: when the connection opens and no `iter.Next` fails, `GetWordForTheDay(date)`
returns, with no error, the first document in query order among those with
`Date == date` whose `Word` text is non-empty, its `Id` set to the document
identifier, and the zero-value `Word` when no such document exists; the store is
left unchanged. -/
theorem getWordForTheDay_spec (e : Env) (date : String) (s : Store)
    (hopen : openClient e = .ok ())
    (hnext : ∀ k, k ≤ (wordsOn date s.words).length → e.nextErr k = false) :
    GetWordForTheDay e date s = (.ok (firstWordOn date s.words), s) ∧
    ((∀ p ∈ wordsOn date s.words, p.2.Word = "") → firstWordOn date s.words = ⟨"", "", "", ""⟩) := by
  constructor
  · simp only [GetWordForTheDay, hopen]
    have := wordLoop_ok e (wordsOn date s.words) 0
      (by intro j hj; rw [Nat.zero_add]; exact hnext j hj)
    unfold wordsOn at this
    rw [this]
    rfl
  · intro h
    unfold firstWordOn
    have hnone : (wordsOn date s.words).find? (fun p => p.2.Word ≠ "") = none := by
      rw [List.find?_eq_none]
      intro p hp
      simp [h p hp]
    rw [hnone]
    rfl

/-- Example for C5: the empty-text document of the day is skipped, and `Id` comes
from the document identifier. -/
theorem getWordForTheDay_spec_witness :
    GetWordForTheDay (Env.ok "" 0) "2024-01-01" threeWords =
      (.ok ⟨"w1", "apple", "2024-01-01", "A"⟩, threeWords) :=
  (getWordForTheDay_spec (Env.ok "" 0) "2024-01-01" threeWords rfl (fun _ _ => rfl)).1

/-! ## `UpdatePublicKey` -/

/-- C6: when `id` resolves to the stored user `d` and `UpdatePublicKey(id, k)`
returns no error, the document at `id` afterwards is `d` with `PublicKey = k` and
every other field (`Id`, `Name`, `TwitterHandle`, `Active`) as before; every other
document is unchanged, and so are the set of documents and the words collection. -/
theorem updatePublicKey_frame (e : Env) (id k : String) (s : Store) (d : User)
    (hd : getDoc id s.users = some d) (hok : (UpdatePublicKey e id k s).1 = .ok ()) :
    getDoc id (UpdatePublicKey e id k s).2.users =
      some ⟨d.Id, d.Name, d.TwitterHandle, k, d.Active⟩ ∧
    (∀ x, x ≠ id → getDoc x (UpdatePublicKey e id k s).2.users = getDoc x s.users) ∧
    docIds (UpdatePublicKey e id k s).2.users = docIds s.users ∧
    (UpdatePublicKey e id k s).2.words = s.words := by
  unfold UpdatePublicKey at hok ⊢
  cases hopen : openClient e with
  | error err => simp [hopen] at hok
  | ok u =>
    cases hg : e.getErr 0 with
    | true => simp [hopen, docGet, hg] at hok
    | false =>
      cases hs : e.setErr 0 with
      | true => simp [hopen, docGet, hg, hd, docSet, hs] at hok
      | false =>
        simp only [docGet, hg, hd, docSet, hs]
        refine ⟨getDoc_putDoc_self _ _ _ _, ?_, ?_, rfl⟩
        · intro x hx
          exact getDoc_putDoc_ne _ _ _ _ _ hx
        · exact docIds_putDoc_of_isSome _ _ _ _ (by simp [hd])

/-- Example for C6: a new key for B; A is untouched. -/
theorem updatePublicKey_frame_witness :
    (UpdatePublicKey (Env.ok "" 0) "B" "abc" twoUsers).2.users =
      [("A", ⟨"A", "Ann", "@ann", "k1", false⟩), ("B", ⟨"B", "Bob", "@bob", "abc", true⟩)] ∧
    getDoc "B" (UpdatePublicKey (Env.ok "" 0) "B" "abc" twoUsers).2.users =
      some ⟨"B", "Bob", "@bob", "abc", true⟩ :=
  ⟨by decide, (updatePublicKey_frame (Env.ok "" 0) "B" "abc" twoUsers
    ⟨"B", "Bob", "@bob", "k2", true⟩ rfl rfl).1⟩

/-! ## `CreateUser` -/

theorem CreateUser_ok {e : Env} {u : User} {s : Store} {i : String}
    (h : (CreateUser e u s).1 = .ok i) :
    i = e.newId ∧ (CreateUser e u s).2 =
      { s with users := putDoc e.pos e.newId { u with Id := e.newId } s.users } := by
  unfold CreateUser at h ⊢
  cases hopen : openClient e with
  | error err => simp [hopen] at h
  | ok v =>
    cases hs : e.setErr 0 with
    | true => simp [hopen, docSet, hs] at h
    | false =>
      simp only [hopen, docSet, hs] at h ⊢
      simp only [Bool.false_eq_true, if_false, Except.ok.injEq] at h
      exact ⟨h.symm, by simp⟩

theorem mem_docIds_putDoc {α : Type} (pos : Nat) (id x : String) (d : α) (c : Coll α) :
    x ∈ docIds (putDoc pos id d c) ↔ x = id ∨ x ∈ docIds c := by
  rw [← getDoc_isSome_iff, ← getDoc_isSome_iff]
  by_cases hx : x = id
  · subst hx
    simp [getDoc_putDoc_self]
  · rw [getDoc_putDoc_ne _ _ _ _ _ hx]
    simp [hx]

theorem createUsers_cons {e : Env} {u : User} {rest : List (Env × User)} {s s1 : Store}
    {ids : List String} (h : createUsers s ((e, u) :: rest) = some (ids, s1)) :
    ∃ ids1, ids = e.newId :: ids1 ∧ (CreateUser e u s).1 = .ok e.newId ∧
      createUsers (CreateUser e u s).2 rest = some (ids1, s1) := by
  unfold createUsers at h
  cases hc : (CreateUser e u s).1 with
  | error err => simp [hc] at h
  | ok i =>
    have hi := (CreateUser_ok hc).1
    subst hi
    cases hr : createUsers (CreateUser e u s).2 rest with
    | none => simp [hc, hr] at h
    | some r =>
      simp only [hc, hr, Option.map_some', Option.some.injEq, Prod.mk.injEq] at h
      refine ⟨r.1, h.1.symm, rfl, ?_⟩
      rw [← h.2]

theorem allocFresh_cons {e : Env} {u : User} {rest : List (Env × User)} {s : Store}
    (h : allocFresh s ((e, u) :: rest) = true) :
    e.newId ≠ "" ∧ getDoc e.newId s.users = none ∧ allocFresh (CreateUser e u s).2 rest = true := by
  unfold allocFresh at h
  simp only [Bool.and_eq_true, decide_eq_true_eq] at h
  refine ⟨h.1.1, ?_, h.2⟩
  cases hg : getDoc e.newId s.users with
  | none => rfl
  | some d => simp [hg] at h

theorem createUsers_ids (calls : List (Env × User)) :
    ∀ (s s1 : Store) (ids : List String), allocFresh s calls = true →
      createUsers s calls = some (ids, s1) →
      ids = calls.map (fun c => c.1.newId) ∧
        (∀ i ∈ ids, i ≠ "" ∧ i ∉ docIds s.users) ∧ ids.Nodup := by
  induction calls with
  | nil =>
    intro s s1 ids _ hrun
    simp only [createUsers, Option.some.injEq, Prod.mk.injEq] at hrun
    rw [← hrun.1]
    simp
  | cons c rest ih =>
    intro s s1 ids hfresh hrun
    obtain ⟨e, u⟩ := c
    obtain ⟨ids1, hids, hok, hrest⟩ := createUsers_cons hrun
    obtain ⟨hne, hnone, hfresh1⟩ := allocFresh_cons hfresh
    obtain ⟨hmap, hall, hnd⟩ := ih _ s1 ids1 hfresh1 hrest
    have hstore := (CreateUser_ok hok).2
    have hin : e.newId ∈ docIds (CreateUser e u s).2.users := by
      rw [hstore]
      exact (mem_docIds_putDoc _ _ _ _ _).mpr (Or.inl rfl)
    have hsub : ∀ x, x ∈ docIds s.users → x ∈ docIds (CreateUser e u s).2.users := by
      intro x hx
      rw [hstore]
      exact (mem_docIds_putDoc _ _ _ _ _).mpr (Or.inr hx)
    subst hids
    refine ⟨by rw [hmap]; rfl, ?_, ?_⟩
    · intro i hi
      rcases List.mem_cons.mp hi with h1 | h2
      · subst h1
        exact ⟨hne, (getDoc_eq_none_iff _ _).mp hnone⟩
      · exact ⟨(hall i h2).1, fun hx => (hall i h2).2 (hsub i hx)⟩
    · exact List.nodup_cons.mpr ⟨fun hmem => (hall _ hmem).2 hin, hnd⟩

theorem createUsers_step (pre : List (Env × User)) :
    ∀ (s s1 : Store) (ids : List String) (e : Env) (u : User) (post : List (Env × User)),
      allocFresh s (pre ++ (e, u) :: post) = true →
      createUsers s (pre ++ (e, u) :: post) = some (ids, s1) →
      ∃ r, createUsers s pre = some r ∧ (CreateUser e u r.2).1 = .ok e.newId ∧
        getDoc e.newId r.2.users = none ∧
        (CreateUser e u r.2).2 =
          { r.2 with users := putDoc e.pos e.newId { u with Id := e.newId } r.2.users } := by
  induction pre with
  | nil =>
    intro s s1 ids e u post hfresh hrun
    obtain ⟨_, _, hok, _⟩ := createUsers_cons hrun
    obtain ⟨_, hnone, _⟩ := allocFresh_cons hfresh
    exact ⟨([], s), rfl, hok, hnone, (CreateUser_ok hok).2⟩
  | cons c rest ih =>
    intro s s1 ids e u post hfresh hrun
    obtain ⟨e0, u0⟩ := c
    obtain ⟨ids1, _, hok, hrest⟩ := createUsers_cons hrun
    obtain ⟨_, _, hfresh1⟩ := allocFresh_cons hfresh
    obtain ⟨r, hr, h1, h2, h3⟩ := ih _ s1 ids1 e u post hfresh1 hrest
    refine ⟨(e0.newId :: r.1, r.2), ?_, h1, h2, h3⟩
    show createUsers s ((e0, u0) :: rest) = _
    unfold createUsers
    simp only [hok, hr, Option.map_some']

/-- C8: take any starting store and any finite sequence of `CreateUser` calls that
all succeed, where each call is handed by `NewDoc` a non-empty identifier not yet
present in the users collection.  Then the returned identifiers are the allocated
ones, each is non-empty, they are pairwise distinct, and at every call of the
sequence the document stored at the returned identifier is the input `User` with
its `Id` replaced by that identifier, while every document that existed before the
call is unchanged (and the words collection is untouched). -/
theorem createUser_sequence (s s1 : Store) (calls : List (Env × User)) (ids : List String)
    (hfresh : allocFresh s calls = true) (hrun : createUsers s calls = some (ids, s1)) :
    ids = calls.map (fun c => c.1.newId) ∧ (∀ i ∈ ids, i ≠ "") ∧ ids.Nodup ∧
    (∀ pre e u post, calls = pre ++ (e, u) :: post →
      ∃ r, createUsers s pre = some r ∧ (CreateUser e u r.2).1 = .ok e.newId ∧
        getDoc e.newId (CreateUser e u r.2).2.users =
          some ⟨e.newId, u.Name, u.TwitterHandle, u.PublicKey, u.Active⟩ ∧
        (∀ x d, getDoc x r.2.users = some d →
          getDoc x (CreateUser e u r.2).2.users = some d) ∧
        (CreateUser e u r.2).2.words = r.2.words) := by
  obtain ⟨hmap, hall, hnd⟩ := createUsers_ids calls s s1 ids hfresh hrun
  refine ⟨hmap, fun i hi => (hall i hi).1, hnd, ?_⟩
  intro pre e u post hcalls
  subst hcalls
  obtain ⟨r, hr, hok, hnone, hstore⟩ := createUsers_step pre s s1 ids e u post hfresh hrun
  refine ⟨r, hr, hok, ?_, ?_, ?_⟩
  · rw [hstore]
    exact getDoc_putDoc_self _ _ _ _
  · intro x d hx
    have hne : x ≠ e.newId := by
      intro h
      rw [h, hnone] at hx
      cases hx
    rw [hstore]
    show getDoc x (putDoc e.pos e.newId { u with Id := e.newId } r.2.users) = some d
    rw [getDoc_putDoc_ne _ _ _ _ _ hne]
    exact hx
  · rw [hstore]

/-- Example for C8: two creations after A and B. -/
theorem createUser_sequence_witness :
    allocFresh twoUsers twoCreates = true ∧
    (createUsers twoUsers twoCreates).map Prod.fst = some ["C", "D"] ∧
    ["C", "D"].Nodup :=
  ⟨by decide, by decide,
    (createUser_sequence twoUsers
      ⟨[("C", ⟨"C", "Cid", "@cid", "k3", false⟩), ("D", ⟨"D", "Dee", "@dee", "", true⟩),
        ("A", ⟨"A", "Ann", "@ann", "k1", false⟩), ("B", ⟨"B", "Bob", "@bob", "k2", true⟩)], []⟩
      twoCreates ["C", "D"] (by decide) (by decide)).2.2.1⟩

/-! ## `AddWord` -/

theorem mem_replaceDoc {α : Type} (id : String) (d : α) (c : Coll α) (p : String × α)
    (h : p ∈ replaceDoc id d c) : p = (id, d) ∨ p ∈ c := by
  induction c with
  | nil => simp [replaceDoc] at h
  | cons q rest ih =>
    obtain ⟨i, x⟩ := q
    by_cases hi : i = id
    · simp only [replaceDoc, hi, if_true, List.mem_cons] at h
      rcases h with h | h
      · exact Or.inl h
      · exact Or.inr (List.mem_cons_of_mem _ h)
    · simp only [replaceDoc, hi, if_false, List.mem_cons] at h
      rcases h with h | h
      · exact Or.inr (by rw [h]; exact List.mem_cons_self _ _)
      · rcases ih h with h1 | h1
        · exact Or.inl h1
        · exact Or.inr (List.mem_cons_of_mem _ h1)

theorem mem_putDoc {α : Type} (pos : Nat) (id : String) (d : α) (c : Coll α) (p : String × α)
    (h : p ∈ putDoc pos id d c) : p = (id, d) ∨ p ∈ c := by
  unfold putDoc at h
  split at h
  · exact mem_replaceDoc id d c p h
  · simp only [insertAt, List.mem_append, List.mem_cons] at h
    rcases h with h | h | h
    · exact Or.inr (List.mem_of_mem_take h)
    · exact Or.inl h
    · exact Or.inr (List.mem_of_mem_drop h)

theorem mem_putDoc_self {α : Type} (pos : Nat) (id : String) (d : α) (c : Coll α) :
    (id, d) ∈ putDoc pos id d c :=
  mem_of_getDoc (getDoc_putDoc_self pos id d c)

theorem find_unique {β : Type} (q : β → Bool) (a : β) :
    ∀ (l : List β), a ∈ l → q a = true → (∀ p ∈ l, q p = true → p = a) →
      l.find? q = some a := by
  intro l
  induction l with
  | nil => intro h; simp at h
  | cons b rest ih =>
    intro ha hq huniq
    cases hb : q b with
    | true =>
      have := huniq b (List.mem_cons_self _ _) hb
      subst this
      simp [List.find?, hb]
    | false =>
      have hne : a ≠ b := by
        intro h
        rw [h, hb] at hq
        cases hq
      have ha1 : a ∈ rest := by
        rcases List.mem_cons.mp ha with h | h
        · exact absurd h hne
        · exact h
      simp only [List.find?, hb]
      exact ih ha1 hq (fun p hp => huniq p (List.mem_cons_of_mem _ hp))

theorem wordLoop_id_empty (e : Env) (docs : List (String × Word)) :
    ∀ (k : Nat) (w0 : Word), wordLoop e k docs = .ok w0 → w0.Id = "" →
      (∀ p ∈ docs, p.1 ≠ "") → ∀ p ∈ docs, p.2.Word = "" := by
  induction docs with
  | nil => intro k w0 _ _ _ p hp; simp at hp
  | cons q rest ih =>
    intro k w0 hrun hid hne p hp
    obtain ⟨i, d⟩ := q
    cases hk : e.nextErr k with
    | true => simp [wordLoop, hk] at hrun
    | false =>
      by_cases hw : d.Word = ""
      · simp only [wordLoop, hk, hw] at hrun
        rcases List.mem_cons.mp hp with h | h
        · rw [h]
          exact hw
        · exact ih (k + 1) w0 (by simpa using hrun) hid
            (fun r hr => hne r (List.mem_cons_of_mem _ hr)) p h
      · exfalso
        simp only [wordLoop, hk, hw] at hrun
        rw [if_pos hw] at hrun
        cases hrun
        exact hne (i, d) (List.mem_cons_self _ _) hid

theorem mem_wordsOn {date : String} {c : Coll Word} {p : String × Word} :
    p ∈ wordsOn date c ↔ p ∈ c ∧ p.2.Date = date := by
  simp [wordsOn, List.mem_filter]

theorem AddWord_ok {e : Env} {w : Word} {s : Store} {i : String}
    (h : (AddWord e w s).1 = .ok i) :
    i = e.newId ∧
    (AddWord e w s).2 = { s with words := putDoc e.pos e.newId { w with Id := e.newId } s.words } ∧
    ∃ w0, wordLoop e.nested 0 (wordsOn w.Date s.words) = .ok w0 ∧ w0.Id = "" := by
  unfold AddWord GetWordForTheDay at h ⊢
  cases hopen : openClient e with
  | error err => simp [hopen] at h
  | ok v =>
    cases hopen1 : openClient e.nested with
    | error err => simp [hopen, hopen1] at h
    | ok v1 =>
      cases hl : wordLoop e.nested 0 (s.words.filter (fun p => p.2.Date = w.Date)) with
      | error err => simp [hopen, hopen1, hl] at h
      | ok w0 =>
        by_cases hid : w0.Id = ""
        · cases hs : e.setErr 0 with
          | true => simp [hopen, hopen1, hl, hid, docSet, hs] at h
          | false =>
            simp only [hopen, hopen1, hl, hid, docSet, hs] at h ⊢
            simp only [ne_eq, not_true_eq_false, if_false, Bool.false_eq_true,
              Except.ok.injEq] at h ⊢
            exact ⟨h.symm, trivial, w0, hl, hid⟩
        · simp [hopen, hopen1, hl, hid] at h

theorem AddWord_fails_of_word (e : Env) (w : Word) (s : Store) (hids : NonemptyIds s.words)
    (hex : ∃ p ∈ wordsOn w.Date s.words, p.2.Word ≠ "") :
    (∃ err, (AddWord e w s).1 = .error err) ∧ (AddWord e w s).2 = s ∧
    (openClient e = .ok () → openClient e.nested = .ok () → (∀ k, e.nextErr k = false) →
      (AddWord e w s).1 = .error .wordExists) := by
  have hne : ∀ p ∈ wordsOn w.Date s.words, p.1 ≠ "" := fun p hp =>
    hids p.1 (mem_docIds_of_mem (mem_wordsOn.mp hp).1)
  have hloop : ∀ w0, wordLoop e.nested 0 (wordsOn w.Date s.words) = .ok w0 → w0.Id ≠ "" := by
    intro w0 hrun hid
    obtain ⟨p, hp, hpw⟩ := hex
    exact hpw (wordLoop_id_empty e.nested _ 0 w0 hrun hid hne p hp)
  unfold AddWord GetWordForTheDay
  cases hopen : openClient e with
  | error err => exact ⟨⟨err, rfl⟩, rfl, fun h => by cases h⟩
  | ok v =>
    cases hopen1 : openClient e.nested with
    | error err => exact ⟨⟨_, rfl⟩, rfl, fun _ h => by cases h⟩
    | ok v1 =>
      cases hl : wordLoop e.nested 0 (s.words.filter (fun p => p.2.Date = w.Date)) with
      | error err =>
        refine ⟨⟨_, rfl⟩, rfl, fun _ _ hn => ?_⟩
        have hok := wordLoop_ok e.nested (wordsOn w.Date s.words) 0 (fun j _ => hn (0 + j))
        unfold wordsOn at hok
        rw [hl] at hok
        cases hok
      | ok w0 =>
        have hid : w0.Id ≠ "" := hloop w0 hl
        simp [hid]

/-- C3 (amended): on a words collection without empty document identifiers, after
`AddWord(w)` with non-empty `Word` text succeeds (written under a non-empty
identifier), every later `AddWord(w2)` with `w2.Date == w.Date` on the resulting
store returns an error and writes nothing; when the connection and the query stream
of that second call do not fail, the error is "word already exists for the day". -/
theorem addWord_duplicate (e1 e2 : Env) (w w2 : Word) (s : Store) (i : String)
    (hids : NonemptyIds s.words) (hnew : e1.newId ≠ "") (hword : w.Word ≠ "")
    (hadd : (AddWord e1 w s).1 = .ok i) (hdate : w2.Date = w.Date) :
    (∃ err, (AddWord e2 w2 (AddWord e1 w s).2).1 = .error err) ∧
    (AddWord e2 w2 (AddWord e1 w s).2).2 = (AddWord e1 w s).2 ∧
    (openClient e2 = .ok () → openClient e2.nested = .ok () → (∀ k, e2.nextErr k = false) →
      (AddWord e2 w2 (AddWord e1 w s).2).1 = .error .wordExists) := by
  obtain ⟨_, hstore, _⟩ := AddWord_ok hadd
  apply AddWord_fails_of_word
  · intro x hx
    rw [hstore] at hx
    rcases (mem_docIds_putDoc _ _ _ _ _).mp hx with h | h
    · rw [h]
      exact hnew
    · exact hids x h
  · refine ⟨(e1.newId, { w with Id := e1.newId }), ?_, hword⟩
    rw [hstore]
    exact mem_wordsOn.mpr ⟨mem_putDoc_self _ _ _ _, hdate.symm⟩

/-- Example for C3 (amended): "apple" then "pear" for the same day. -/
theorem addWord_duplicate_witness :
    (AddWord (Env.ok "w1" 0) ⟨"", "apple", "2024-01-01", "A"⟩ ⟨[], []⟩).1 = .ok "w1" ∧
    (AddWord (Env.ok "w2" 0) ⟨"", "pear", "2024-01-01", "B"⟩
      (AddWord (Env.ok "w1" 0) ⟨"", "apple", "2024-01-01", "A"⟩ ⟨[], []⟩).2).1 =
        .error .wordExists :=
  ⟨rfl, (addWord_duplicate (Env.ok "w1" 0) (Env.ok "w2" 0) ⟨"", "apple", "2024-01-01", "A"⟩
    ⟨"", "pear", "2024-01-01", "B"⟩ ⟨[], []⟩ "w1" (by intro x hx; simp [docIds] at hx)
    (by decide) (by decide) rfl rfl).2.2 rfl rfl (fun _ => rfl)⟩

/-- C3 as stated fails for the empty `Word` text: after `AddWord` of a word with
empty text succeeds, a second `AddWord` for the same date succeeds too and writes a
second document for that date. -/
theorem addWord_duplicate_counterexample :
    (AddWord (Env.ok "w1" 0) ⟨"", "", "2024-01-01", "A"⟩ ⟨[], []⟩).1 = .ok "w1" ∧
    AddWord (Env.ok "w2" 1) ⟨"", "pear", "2024-01-01", "B"⟩
      (AddWord (Env.ok "w1" 0) ⟨"", "", "2024-01-01", "A"⟩ ⟨[], []⟩).2 =
      (.ok "w2", ⟨[], [("w1", ⟨"w1", "", "2024-01-01", "A"⟩),
        ("w2", ⟨"w2", "pear", "2024-01-01", "B"⟩)]⟩) :=
  ⟨rfl, rfl⟩

/-- C4 (amended): on a words collection without empty document identifiers, when
`AddWord(w)` with non-empty `Word` text succeeds returning `i`, a following
`GetWordForTheDay(w.Date)` whose connection and query stream do not fail returns,
with no error, the word `(Id: i, Word: w.Word, Date: w.Date, UserId: w.UserId)`; and
for every store and date for which the words collection holds no document,
`GetWordForTheDay(date)` returns the zero-value `Word` with no error. -/
theorem addWord_getWord_roundtrip (e1 e2 : Env) (w : Word) (s : Store) (i : String)
    (hids : NonemptyIds s.words) (hword : w.Word ≠ "")
    (hadd : (AddWord e1 w s).1 = .ok i)
    (hopen : openClient e2 = .ok ()) (hnext : ∀ k, e2.nextErr k = false) :
    GetWordForTheDay e2 w.Date (AddWord e1 w s).2 =
      (.ok ⟨i, w.Word, w.Date, w.UserId⟩, (AddWord e1 w s).2) ∧
    (∀ (t : Store) (date : String), (∀ p ∈ t.words, p.2.Date ≠ date) →
      GetWordForTheDay e2 date t = (.ok ⟨"", "", "", ""⟩, t)) := by
  constructor
  · obtain ⟨hi, hstore, w0, hloop, hid0⟩ := AddWord_ok hadd
    subst hi
    have hold : ∀ p ∈ wordsOn w.Date s.words, p.2.Word = "" :=
      wordLoop_id_empty e1.nested _ 0 w0 hloop hid0
        (fun p hp => hids p.1 (mem_docIds_of_mem (mem_wordsOn.mp hp).1))
    have hfind : (wordsOn w.Date (AddWord e1 w s).2.words).find? (fun p => p.2.Word ≠ "") =
        some (e1.newId, { w with Id := e1.newId }) := by
      apply find_unique
      · rw [hstore]
        exact mem_wordsOn.mpr ⟨mem_putDoc_self _ _ _ _, rfl⟩
      · simpa using hword
      · intro p hp hq
        rw [hstore] at hp
        obtain ⟨hmem, hdate⟩ := mem_wordsOn.mp hp
        rcases mem_putDoc _ _ _ _ _ hmem with h | h
        · exact h
        · exfalso
          have := hold p (mem_wordsOn.mpr ⟨h, hdate⟩)
          simp [this] at hq
    simp only [GetWordForTheDay, hopen]
    have hok := wordLoop_ok e2 (wordsOn w.Date (AddWord e1 w s).2.words) 0 (fun j _ => hnext (0 + j))
    rw [hfind] at hok
    unfold wordsOn at hok
    rw [hok]
    rfl
  · intro t date hnone
    have hnil : t.words.filter (fun p => p.2.Date = date) = [] := by
      rw [List.filter_eq_nil_iff]
      intro p hp
      simpa using hnone p hp
    simp only [GetWordForTheDay, hopen, hnil, wordLoop, hnext 0]
    rfl

/-- Example for C4 (amended): the scenario of the spec, "apple" on 2024-01-01. -/
theorem addWord_getWord_roundtrip_witness :
    (AddWord (Env.ok "w1" 0) ⟨"", "apple", "2024-01-01", "A"⟩ ⟨[], []⟩).1 = .ok "w1" ∧
    GetWordForTheDay (Env.ok "" 0) "2024-01-01"
      (AddWord (Env.ok "w1" 0) ⟨"", "apple", "2024-01-01", "A"⟩ ⟨[], []⟩).2 =
      (.ok ⟨"w1", "apple", "2024-01-01", "A"⟩,
        (AddWord (Env.ok "w1" 0) ⟨"", "apple", "2024-01-01", "A"⟩ ⟨[], []⟩).2) :=
  ⟨rfl, (addWord_getWord_roundtrip (Env.ok "w1" 0) (Env.ok "" 0)
    ⟨"", "apple", "2024-01-01", "A"⟩ ⟨[], []⟩ "w1" (by intro x hx; simp [docIds] at hx)
    (by decide) rfl rfl (fun _ => rfl)).1⟩

/-- C4 as stated fails for the empty `Word` text: `AddWord` succeeds returning "w1",
yet `GetWordForTheDay` for that date returns the zero-value `Word`, not the word
with `Id` "w1". -/
theorem addWord_getWord_roundtrip_counterexample :
    (AddWord (Env.ok "w1" 0) ⟨"", "", "2024-01-01", "A"⟩ ⟨[], []⟩).1 = .ok "w1" ∧
    (GetWordForTheDay (Env.ok "" 0) "2024-01-01"
      (AddWord (Env.ok "w1" 0) ⟨"", "", "2024-01-01", "A"⟩ ⟨[], []⟩).2).1 =
        .ok ⟨"", "", "", ""⟩ ∧
    (⟨"", "", "", ""⟩ : Word) ≠ ⟨"w1", "", "2024-01-01", "A"⟩ :=
  ⟨rfl, rfl, by decide⟩

/-! ## The single-active-user invariant -/

theorem activeIds_length (c : Coll User) : (activeIds c).length = activeCount c := by
  simp [activeIds, docIds, activeCount]

theorem activeCount_cons (p : String × User) (c : Coll User) :
    activeCount (p :: c) = (if p.2.Active then 1 else 0) + activeCount c := by
  unfold activeCount
  cases h : p.2.Active <;> simp [List.filter_cons, h, Nat.add_comm]

theorem activeCount_append (a b : Coll User) :
    activeCount (a ++ b) = activeCount a + activeCount b := by
  simp [activeCount, List.filter_append]

theorem activeCount_replaceDoc_le (id : String) (d : User) (c : Coll User) :
    activeCount (replaceDoc id d c) ≤ activeCount c + (if d.Active then 1 else 0) := by
  induction c with
  | nil => simp [replaceDoc, activeCount]
  | cons p rest ih =>
    obtain ⟨i, x⟩ := p
    by_cases hi : i = id
    · simp only [replaceDoc, hi, if_true, activeCount_cons]
      split <;> split <;> omega
    · simp only [replaceDoc, hi, if_false, activeCount_cons]
      omega

theorem activeCount_insertAt (pos : Nat) (p : String × User) (c : Coll User) :
    activeCount (insertAt pos p c) = activeCount c + (if p.2.Active then 1 else 0) := by
  have hc : activeCount c = activeCount (c.take pos) + activeCount (c.drop pos) := by
    rw [← activeCount_append, List.take_append_drop]
  rw [insertAt, activeCount_append, activeCount_cons, hc]
  omega

theorem activeCount_putDoc_le (pos : Nat) (id : String) (d : User) (c : Coll User) :
    activeCount (putDoc pos id d c) ≤ activeCount c + (if d.Active then 1 else 0) := by
  unfold putDoc
  split
  · exact activeCount_replaceDoc_le id d c
  · exact Nat.le_of_eq (activeCount_insertAt pos (id, d) c)

theorem activeCount_replaceDoc_same (id : String) (d d1 : User) (hact : d1.Active = d.Active) :
    ∀ (c : Coll User), getDoc id c = some d →
      activeCount (replaceDoc id d1 c) = activeCount c := by
  intro c
  induction c with
  | nil => intro h; simp [getDoc] at h
  | cons p rest ih =>
    intro h
    obtain ⟨i, x⟩ := p
    by_cases hi : i = id
    · simp only [getDoc, hi, if_true, Option.some.injEq] at h
      subst h
      simp only [replaceDoc, hi, if_true, activeCount_cons, hact]
    · simp only [getDoc, hi, if_false] at h
      simp only [replaceDoc, hi, if_false, activeCount_cons, ih h]

theorem isOk_eq_true {ε α : Type} {r : Except ε α} (h : isOk r = true) : ∃ a, r = .ok a := by
  cases r with
  | error err => simp [isOk] at h
  | ok a => exact ⟨a, rfl⟩

theorem UpdatePublicKey_ok {e : Env} {id k : String} {s : Store}
    (h : (UpdatePublicKey e id k s).1 = .ok ()) :
    ∃ d, getDoc id s.users = some d ∧ (UpdatePublicKey e id k s).2 =
      { s with users := replaceDoc id { d with PublicKey := k } s.users } := by
  unfold UpdatePublicKey at h ⊢
  cases hopen : openClient e with
  | error err => simp [hopen] at h
  | ok u =>
    cases hg : e.getErr 0 with
    | true => simp [hopen, docGet, hg] at h
    | false =>
      cases hd : getDoc id s.users with
      | none => simp [hopen, docGet, hg, hd] at h
      | some d =>
        cases hs : e.setErr 0 with
        | true => simp [hopen, docGet, hg, hd, docSet, hs] at h
        | false => simp [docGet, hg, docSet, hs, putDoc, hd]

theorem ListUsers_store (e : Env) (s : Store) : (ListUsers e s).2 = s := by
  unfold ListUsers
  split <;> rfl

theorem GetWordForTheDay_store (e : Env) (date : String) (s : Store) :
    (GetWordForTheDay e date s).2 = s := by
  unfold GetWordForTheDay
  split <;> rfl

theorem AddWord_users (e : Env) (w : Word) (s : Store) : (AddWord e w s).2.users = s.users := by
  cases h : (AddWord e w s).1 with
  | ok i => rw [(AddWord_ok h).2.1]
  | error err =>
    unfold AddWord at h ⊢
    cases hopen : openClient e with
    | error err1 => rfl
    | ok v =>
      rcases hg : GetWordForTheDay e.nested w.Date s with ⟨r, s1⟩
      have hs1 : s1 = s := by
        have := GetWordForTheDay_store e.nested w.Date s
        rw [hg] at this
        exact this
      subst hs1
      cases r with
      | error err1 => rfl
      | ok w0 =>
        by_cases hid : w0.Id = ""
        · cases hs : e.setErr 0 with
          | true => simp [hid, docSet, hs]
          | false => simp [hopen, hg, hid, docSet, hs] at h
        · simp [hid]

/-- C2 (amended): on a store whose user documents have distinct identifiers and
with at most one active user, every successful call of `ListUsers`,
`MarkUserActive`, `UpdatePublicKey`, `AddWord` or `GetWordForTheDay` leaves at most
one active user, and so does every successful `CreateUser` whose input has
`Active == false` or that runs when no stored user is active. -/
theorem atMostOneActive_preserved (e : Env) (op : Op) (s : Store)
    (hu : UniqueIds s.users) (hinv : AtMostOneActive s) (hok : (op.run e s).1 = true)
    (hcreate : ∀ u, op = .createUser u → u.Active = false ∨ activeIds s.users = []) :
    AtMostOneActive (op.run e s).2 := by
  unfold AtMostOneActive at hinv ⊢
  rw [activeIds_length] at hinv ⊢
  cases op with
  | listUsers =>
    show activeCount (ListUsers e s).2.users ≤ 1
    rw [ListUsers_store]
    exact hinv
  | createUser u =>
    obtain ⟨i, hi⟩ := isOk_eq_true hok
    show activeCount (CreateUser e u s).2.users ≤ 1
    rw [(CreateUser_ok hi).2]
    have hle := activeCount_putDoc_le e.pos e.newId { u with Id := e.newId } s.users
    rcases hcreate u rfl with h | h
    · have h0 : (if ({ u with Id := e.newId } : User).Active = true then 1 else 0) = 0 := by
        simp [h]
      rw [h0] at hle
      exact Nat.le_trans hle hinv
    · have hz : activeCount s.users = 0 := by
        rw [← activeIds_length, h]
        rfl
      rw [hz] at hle
      refine Nat.le_trans hle ?_
      split <;> omega
  | markUserActive id =>
    obtain ⟨u, hi⟩ := isOk_eq_true hok
    show activeCount (MarkUserActive e id s).2.users ≤ 1
    rw [← activeIds_length, MarkUserActive_ok_activeIds e id s hu hi]
    exact Nat.le_refl _
  | updatePublicKey id k =>
    obtain ⟨u, hi⟩ := isOk_eq_true hok
    obtain ⟨d, hd, hstore⟩ := UpdatePublicKey_ok hi
    show activeCount (UpdatePublicKey e id k s).2.users ≤ 1
    rw [hstore]
    show activeCount (replaceDoc id { d with PublicKey := k } s.users) ≤ 1
    rw [activeCount_replaceDoc_same id d { d with PublicKey := k } rfl s.users hd]
    exact hinv
  | addWord w =>
    show activeCount (AddWord e w s).2.users ≤ 1
    rw [AddWord_users]
    exact hinv
  | getWordForTheDay date =>
    show activeCount (GetWordForTheDay e date s).2.users ≤ 1
    rw [GetWordForTheDay_store]
    exact hinv

/-- Example for C2 (amended): creating an inactive user next to the active B. -/
theorem atMostOneActive_preserved_witness :
    AtMostOneActive twoUsers ∧
    ((Op.createUser ⟨"", "Cid", "@cid", "k3", false⟩).run (Env.ok "C" 0) twoUsers).1 = true ∧
    AtMostOneActive ((Op.createUser ⟨"", "Cid", "@cid", "k3", false⟩).run (Env.ok "C" 0) twoUsers).2 :=
  ⟨by decide, rfl,
    atMostOneActive_preserved (Env.ok "C" 0) (.createUser ⟨"", "Cid", "@cid", "k3", false⟩)
      twoUsers (by decide) (by decide) rfl
      (fun u h => Or.inl (by cases h; rfl))⟩

/-- C2 as stated fails for `CreateUser`: on a store with the single active user B,
a successful `CreateUser` of a user with `Active == true` under the fresh identifier
"C" leaves two active users. -/
theorem atMostOneActive_preserved_counterexample :
    UniqueIds twoUsers.users ∧ AtMostOneActive twoUsers ∧
    (CreateUser (Env.ok "C" 2) ⟨"", "Cid", "@cid", "k3", true⟩ twoUsers).1 = .ok "C" ∧
    activeIds (CreateUser (Env.ok "C" 2) ⟨"", "Cid", "@cid", "k3", true⟩ twoUsers).2.users =
      ["B", "C"] ∧
    ¬ AtMostOneActive (CreateUser (Env.ok "C" 2) ⟨"", "Cid", "@cid", "k3", true⟩ twoUsers).2 :=
  ⟨by decide, by decide, rfl, by decide, by decide⟩

end Dao
